import Mathlib

/-!
Shallow embedding of `prediction_Image(Litton-7type-visual-landscape-model).py`.

The program is a batch classifier: for every sub-folder of a root folder it
lists the entries, sorts them, and runs each entry through a per-entry
pipeline (category-folder creation, a dead extension-check loop, building the
joined path `name`, opening/preprocessing/classifying the image and applying
softmax), with a bare `except:` handler around the `try` block, and a `try`
`else` clause holding the argmax decision, the ledger appends and the
`shutil.move` disposition.  After the loop it always writes the success CSV
and writes the error CSV only when the failure ledger is non-empty.

The embedding models the external world (filesystem and the neural network)
per entry through `EntryBehavior`: whether `os.mkdir` raises, the softmax
output of the model (`none` when any of `Image.open` / `preprocess` / the
model call raises), and whether `shutil.move` raises.  Tensor values are
modelled as rationals.  File-system directory state is a list of existing
category-folder names.
-/

set_option autoImplicit false

namespace Litton7

/-- Lines 142-150 of the source: the seven Litton category labels. -/
def labels : List String :=
  ["0.Panoramic-landscape",
   "1.Feature-landscape",
   "2.Detail-landscape",
   "3.Enclosed-landscape",
   "4.Focal-landscape",
   "5.Ephemeral-landscape",
   "6.Canopied-landscape"]

/-- Lines 153-155: `labelsnum = [str(i) for i in range(len(labels))]`. -/
def labelsnum : List String :=
  (List.range labels.length).map (fun i => toString i)

/-- Line 156: the extension allow-list `img_type = [".jpg", ".bmp", ".png"]`. -/
def img_type : List String := [".jpg", ".bmp", ".png"]

/-- Behaviour of the outside world (filesystem + model) for one directory
entry.  `mkdirRaises` — an attempted `os.mkdir` during the category-folder
loop raises (modelled as raising at the first attempted creation; a creation
guarded away by `os.path.isdir` cannot raise).  `softmaxOut` — the value of
`F.softmax(model(...), dim=1)` for this entry, or `none` when any of
`Image.open` / `preprocess` / the model call raises.  `moveRaises` — the
`shutil.move` call in the `try`'s `else` clause raises. -/
structure EntryBehavior where
  mkdirRaises : Bool
  softmaxOut : Option (List (List ℚ))
  moveRaises : Bool
deriving DecidableEq

/-- The local state of `main` (lines 183-232): the four success-ledger lists,
the failure ledger `error`, the Python variable `name` (`none` while still
unbound), and the set of category sub-folders existing in `imgpath`. -/
structure MainState where
  imgname : List String
  imglabel : List String
  imglabelnum : List String
  rate : List ℚ
  error : List String
  name : Option String
  dirs : List String
deriving DecidableEq

/-- The state at `main` entry: empty ledgers, `name` unbound, and (for a fresh
folder) no category sub-folders yet. -/
def initState : MainState :=
  { imgname := [], imglabel := [], imglabelnum := [], rate := [],
    error := [], name := none, dirs := [] }

/-- Ways the per-folder run dies instead of completing:
an exception escaping the bare `except:` handler itself (the `NameError` from
printing an unbound `name`), or an uncaught exception raised inside the
`try`'s `else` clause (decision stage or `shutil.move`). -/
inductive Abort where
  | nameErrorInHandler
  | uncaughtElse
deriving DecidableEq

/-- Equality test for `Except` values, used to evaluate closed runs. -/
instance {ε α : Type} [DecidableEq ε] [DecidableEq α] : DecidableEq (Except ε α) :=
  fun a b =>
    match a, b with
    | .ok x, .ok y =>
        if h : x = y then .isTrue (by rw [h]) else .isFalse (by simp [h])
    | .error x, .error y =>
        if h : x = y then .isTrue (by rw [h]) else .isFalse (by simp [h])
    | .ok _, .error _ => .isFalse (by simp)
    | .error _, .ok _ => .isFalse (by simp)

/-- Model of `os.path.join` for a relative second argument on POSIX. -/
def joinPath (a b : String) : String := a ++ "/" ++ b

/-- Lines 197-202, generalized over the remaining label list:
`for i in range(len(labels)): if infile == labels[i]: continue;
fpath = os.path.join(imgpath, labels[i]);
if not os.path.isdir(fpath): os.mkdir(fpath)`.
The `continue` skips only the creation of the one label folder equal to
`infile`; it does not skip the entry.  A raising `os.mkdir` is modelled as
failing at the first attempted creation. -/
def ensureCatsAux (infile : String) (raises : Bool) :
    List String → List String → Except Unit (List String)
  | [], acc => .ok acc
  | lab :: labs, acc =>
      if infile = lab then ensureCatsAux infile raises labs acc
      else if lab ∈ acc then ensureCatsAux infile raises labs acc
      else if raises then .error ()
      else ensureCatsAux infile raises labs (acc ++ [lab])

/-- The category-folder creation step for one entry (lines 197-202), run over
the full label list against the currently existing directories `dirs`. -/
def ensureCats (infile : String) (dirs : List String) (raises : Bool) :
    Except Unit (List String) :=
  ensureCatsAux infile raises labels dirs

/-- Test whether `sub` occurs at the start of `s` (on character lists). -/
def matchesAt : List Char → List Char → Bool
  | [], _ => true
  | _ :: _, [] => false
  | c :: cs, d :: ds => c == d && matchesAt cs ds

/-- Python `str.find`: index of the first occurrence of `sub`, else `-1`. -/
def pyFindAux (sub : List Char) : List Char → Nat → Option Nat
  | [], i => if matchesAt sub [] then some i else none
  | c :: cs, i => if matchesAt sub (c :: cs) then some i else pyFindAux sub cs (i + 1)

/-- Python `s.find(sub)` as an integer (`-1` when absent). -/
def pyFind (s sub : String) : Int :=
  match pyFindAux sub.data s.data 0 with
  | some i => (i : Int)
  | none => -1

/-- Lines 203-205: `for check in img_type: if infile.find(check) == -1:
continue`.  The `continue` targets this very loop, so the loop computes the
`find` results and discards them: it never skips the entry and has no effect
on the state. -/
def extFilterLoop (infile : String) : Unit :=
  img_type.foldl (fun u check => if pyFind infile check == -1 then u else u) ()

/-- The spec's eligibility predicate, stated from the spec's words for
comparison with the code: an entry is eligible iff its extension matches at
least one member of the allow-list `{jpg, bmp, png}`. -/
def specEligible (infile : String) : Bool :=
  img_type.any (fun ext => ext.data.isSuffixOf infile.data)

/-- Python `l[i]`: `IndexError` when out of bounds. -/
def pyGet {α : Type} (l : List α) (i : Nat) : Except Unit α :=
  match l.get? i with
  | some a => .ok a
  | none => .error ()

/-- Python `max(l)`: `ValueError` on an empty list, otherwise the left fold of
the binary maximum over the list. -/
def pyMax : List ℚ → Except Unit ℚ
  | [] => .error ()
  | x :: xs => .ok (xs.foldl max x)

/-- Python `l.index(v)`: the smallest index holding `v`; `ValueError` when `v`
is absent. -/
def pyIndexAux (v : ℚ) : List ℚ → Except Unit Nat
  | [] => .error ()
  | x :: xs =>
      if x = v then .ok 0
      else
        match pyIndexAux v xs with
        | .error e => .error e
        | .ok i => .ok (i + 1)

/-- The inner loop of lines 220-222: `for x in range(len(labelsnum)):
transfer_list.append(fc_out[0][x].item())`, over an explicit index list. -/
def innerTransfer (row : List ℚ) : List Nat → List ℚ → Except Unit (List ℚ)
  | [], acc => .ok acc
  | x :: xs, acc =>
      match pyGet row x with
      | .error e => .error e
      | .ok v => innerTransfer row xs (acc ++ [v])

/-- The outer loop of lines 220-222: `for out in fc_out:` — each iteration
re-reads row `fc_out[0]` and appends its first `len(labelsnum)` items. -/
def outerTransfer (fcOut : List (List ℚ)) :
    List (List ℚ) → List ℚ → Except Unit (List ℚ)
  | [], acc => .ok acc
  | _out :: outs, acc =>
      match pyGet fcOut 0 with
      | .error e => .error e
      | .ok row0 =>
          match innerTransfer row0 (List.range labelsnum.length) acc with
          | .error e => .error e
          | .ok acc1 => outerTransfer fcOut outs acc1

/-- Lines 219-222: build `transfer_list` from `fc_out`. -/
def transferList (fcOut : List (List ℚ)) : Except Unit (List ℚ) :=
  outerTransfer fcOut fcOut []

/-- The decision stage (lines 219-226): `best_out = max(transfer_list);
i = transfer_list.index(best_out); label = labels[i]; labelnum =
labelsnum[i]`.  Runs inside the `try`'s `else` clause, so any exception here
is uncaught.  Returns `(label, labelnum, best_out, i)`. -/
def decideStage (fcOut : List (List ℚ)) :
    Except Unit (String × String × ℚ × Nat) :=
  match transferList fcOut with
  | .error e => .error e
  | .ok tl =>
      match pyMax tl with
      | .error e => .error e
      | .ok best =>
          match pyIndexAux best tl with
          | .error e => .error e
          | .ok i =>
              match pyGet labels i with
              | .error e => .error e
              | .ok label =>
                  match pyGet labelsnum i with
                  | .error e => .error e
                  | .ok labelnum => .ok (label, labelnum, best, i)

/-- One iteration of the entry loop (lines 195-232).  The `try` block holds
category-folder creation, the dead extension loop, the assignment
`name = os.path.join(imgpath, infile)` and the open/preprocess/model/softmax
calls (the discarded `fc_out.tolist()` included); the bare `except:` handler
prints and appends the current value of `name` (raising `NameError`, hence
aborting, when `name` is unbound); the `else` clause runs the decision stage,
appends the four success-ledger values and moves the file — exceptions there
are uncaught and abort the run. -/
def processEntry (env : String → EntryBehavior) (imgpath infile : String)
    (st : MainState) : Except Abort MainState :=
  match ensureCats infile st.dirs (env infile).mkdirRaises with
  | .error () =>
      match st.name with
      | none => .error Abort.nameErrorInHandler
      | some n => .ok { st with error := st.error ++ [n] }
  | .ok dirs1 =>
      let _u := extFilterLoop infile
      let name := joinPath imgpath infile
      match (env infile).softmaxOut with
      | none =>
          .ok { st with
                  dirs := dirs1, name := some name,
                  error := st.error ++ [name] }
      | some fcOut =>
          match decideStage fcOut with
          | .error () => .error Abort.uncaughtElse
          | .ok (label, labelnum, best, _i) =>
              if (env infile).moveRaises then .error Abort.uncaughtElse
              else
                .ok { st with
                        dirs := dirs1, name := some name,
                        rate := st.rate ++ [best],
                        imgname := st.imgname ++ [infile],
                        imglabel := st.imglabel ++ [label],
                        imglabelnum := st.imglabelnum ++ [labelnum] }

/-- The entry loop of `main` (lines 195-232) over the sorted entry list. -/
def mainLoop (env : String → EntryBehavior) (imgpath : String) :
    List String → MainState → Except Abort MainState
  | [], st => .ok st
  | e :: rest, st =>
      match processEntry env imgpath e st with
      | .error a => .error a
      | .ok st1 => mainLoop env imgpath rest st1

/-- Insertion step of the model of `list.sort()` (ascending, stable). -/
def insertSorted (s : String) : List String → List String
  | [] => [s]
  | t :: ts =>
      match compare s t with
      | .gt => t :: insertSorted s ts
      | _ => s :: t :: ts

/-- Model of Python `list.sort()` on strings (lines 193-194). -/
def sortStrings : List String → List String
  | [] => []
  | s :: ss => insertSorted s (sortStrings ss)

/-- A CSV artifact written by the report stage. -/
inductive CsvWrite where
  | successCsv (imgname imglabel imglabelnum : List String) (rate : List ℚ)
  | failureCsv (errorImgname : List String)
deriving DecidableEq

/-- Lines 233-246: the success CSV (four columns) is always written; the
error CSV (single column `error_imgname`) is written iff `error` is
non-empty (`if error:`). -/
def reportWrites (st : MainState) : List CsvWrite :=
  CsvWrite.successCsv st.imgname st.imglabel st.imglabelnum st.rate ::
    (if st.error.isEmpty then [] else [CsvWrite.failureCsv st.error])

/-- The whole of `main(imgpath)` (lines 183-246) for one folder: sort the
listing, run the entry loop from the initial state, then report.  An uncaught
exception propagates to the caller as `Except.error`. -/
def main (env : String → EntryBehavior) (imgpath : String)
    (entries : List String) : Except Abort (MainState × List CsvWrite) :=
  match mainLoop env imgpath (sortStrings entries) initState with
  | .error a => .error a
  | .ok st => .ok (st, reportWrites st)

/-- Lines 251-266: the top-level loop over the (sorted) sub-folders, given as
pairs of folder path and directory listing.  Nothing catches an exception
escaping `main`, so an abort in one folder kills the remaining folders. -/
def script (env : String → EntryBehavior) :
    List (String × List String) → Except Abort (List (MainState × List CsvWrite))
  | [] => .ok []
  | (p, es) :: rest =>
      match main env p es with
      | .error a => .error a
      | .ok r =>
          match script env rest with
          | .error a => .error a
          | .ok rs => .ok (r :: rs)

/-! ### Basic lemmas about the Python-operation models -/

lemma pyGet_eq_ok {α : Type} (l : List α) (i : Nat) (d : α) (h : i < l.length) :
    pyGet l i = .ok (l.getD i d) := by
  unfold pyGet
  rw [List.get?_eq_get h]
  rw [List.getD_eq_getElem l d h]
  rfl

lemma le_foldl_max (xs : List ℚ) : ∀ x : ℚ, x ≤ xs.foldl max x := by
  induction xs with
  | nil => intro x; exact le_refl x
  | cons y ys ih =>
      intro x
      exact le_trans (le_max_left x y) (ih (max x y))

lemma mem_le_foldl_max (xs : List ℚ) : ∀ x y : ℚ, y ∈ xs → y ≤ xs.foldl max x := by
  induction xs with
  | nil => intro x y h; cases h
  | cons z zs ih =>
      intro x y h
      cases h with
      | head => exact le_trans (le_max_right x z) (le_foldl_max zs (max x z))
      | tail _ h2 => exact ih (max x z) y h2

lemma foldl_max_mem (xs : List ℚ) : ∀ x : ℚ, xs.foldl max x = x ∨ xs.foldl max x ∈ xs := by
  induction xs with
  | nil => intro x; exact Or.inl rfl
  | cons z zs ih =>
      intro x
      rcases ih (max x z) with h | h
      · rcases max_choice x z with hx | hz
        · left
          show zs.foldl max (max x z) = x
          rw [h, hx]
        · right
          show zs.foldl max (max x z) ∈ z :: zs
          rw [h, hz]
          exact List.mem_cons_self _ _
      · right
        exact List.mem_cons_of_mem _ h

lemma pyMax_spec (v : List ℚ) (hne : v ≠ []) :
    ∃ m, pyMax v = .ok m ∧ m ∈ v ∧ ∀ y ∈ v, y ≤ m := by
  cases v with
  | nil => exact absurd rfl hne
  | cons x xs =>
      refine ⟨xs.foldl max x, rfl, ?_, ?_⟩
      · rcases foldl_max_mem xs x with h | h
        · rw [h]; exact List.mem_cons_self _ _
        · exact List.mem_cons_of_mem _ h
      · intro y hy
        cases hy with
        | head => exact le_foldl_max xs x
        | tail _ h2 => exact mem_le_foldl_max xs x y h2

lemma pyIndexAux_of_mem (v : ℚ) : ∀ l : List ℚ, v ∈ l → ∃ i, pyIndexAux v l = .ok i := by
  intro l
  induction l with
  | nil => intro h; cases h
  | cons x xs ih =>
      intro h
      by_cases hx : x = v
      · exact ⟨0, by simp [pyIndexAux, hx]⟩
      · have hm : v ∈ xs := by
          cases h with
          | head => exact absurd rfl hx
          | tail _ h2 => exact h2
        obtain ⟨i, hi⟩ := ih hm
        exact ⟨i + 1, by simp [pyIndexAux, hx, hi]⟩

lemma pyIndexAux_spec (v : ℚ) : ∀ (l : List ℚ) (i : Nat), pyIndexAux v l = .ok i →
    i < l.length ∧ l.getD i 0 = v ∧ ∀ j, j < i → l.getD j 0 ≠ v := by
  intro l
  induction l with
  | nil => intro i h; simp [pyIndexAux] at h
  | cons x xs ih =>
      intro i h
      by_cases hx : x = v
      · have h0 : i = 0 := by
          simp [pyIndexAux, hx] at h
          exact h.symm
        subst h0
        refine ⟨by simp, by simpa using hx, ?_⟩
        intro j hj
        exact absurd hj (Nat.not_lt_zero j)
      · simp only [pyIndexAux, if_neg hx] at h
        cases hrec : pyIndexAux v xs with
        | error e => rw [hrec] at h; cases h
        | ok i0 =>
            rw [hrec] at h
            have hi : i = i0 + 1 := by
              cases h
              rfl
            subst hi
            obtain ⟨h1, h2, h3⟩ := ih i0 hrec
            refine ⟨by simpa using h1, by simpa using h2, ?_⟩
            intro j hj
            cases j with
            | zero => simpa using hx
            | succ j0 =>
                rw [List.getD_cons_succ]
                exact h3 j0 (Nat.lt_of_succ_lt_succ hj)

lemma innerTransfer_ok (row : List ℚ) :
    ∀ (idxs : List Nat) (acc : List ℚ), (∀ x ∈ idxs, x < row.length) →
      innerTransfer row idxs acc = .ok (acc ++ idxs.map (fun x => row.getD x 0)) := by
  intro idxs
  induction idxs with
  | nil => intro acc _; simp [innerTransfer]
  | cons x xs ih =>
      intro acc h
      have hx : x < row.length := h x (List.mem_cons_self _ _)
      simp only [innerTransfer, pyGet_eq_ok row x 0 hx]
      rw [ih (acc ++ [row.getD x 0]) (fun y hy => h y (List.mem_cons_of_mem _ hy))]
      simp

lemma map_getD_range (l : List ℚ) :
    (List.range l.length).map (fun x => l.getD x 0) = l := by
  induction l with
  | nil => simp
  | cons a t ih =>
      rw [List.length_cons, List.range_succ_eq_map]
      simp only [List.map_cons, List.map_map, List.getD_cons_zero]
      have hc : ((fun x => (a :: t).getD x 0) ∘ fun i => i + 1) = fun x => t.getD x 0 := by
        funext x
        simp [List.getD_cons_succ]
      rw [hc, ih]

lemma labelsnum_length : labelsnum.length = labels.length := by
  simp [labelsnum]

lemma transferList_single (v : List ℚ) (hv : v.length = labels.length) :
    transferList [v] = .ok v := by
  have hpy : pyGet [v] 0 = .ok v := rfl
  have hin : innerTransfer v (List.range labelsnum.length) [] =
      .ok ([] ++ (List.range labelsnum.length).map (fun x => v.getD x 0)) := by
    apply innerTransfer_ok
    intro x hx
    rw [labelsnum_length, ← hv] at hx
    exact List.mem_range.mp hx
  rw [labelsnum_length, ← hv, map_getD_range] at hin
  unfold transferList
  simp only [outerTransfer, hpy]
  rw [labelsnum_length, ← hv, hin]
  simp [outerTransfer]

/-- Core property of the decision stage on a single softmax row of the model's
shape: it selects the least index of the maximum entry, pairs it with the
value at that index, and reads off the matching label strings.  Being a pure
function, it is deterministic by construction. -/
lemma decideStage_spec (v : List ℚ) (hv : v.length = labels.length) :
    ∃ i best, decideStage [v] = .ok (labels.getD i "", labelsnum.getD i "", best, i) ∧
      i < v.length ∧ v.getD i 0 = best ∧
      (∀ j, j < v.length → v.getD j 0 ≤ best) ∧
      (∀ j, j < i → v.getD j 0 < best) := by
  have hne : v ≠ [] := by
    intro h
    rw [h] at hv
    simp [labels] at hv
  obtain ⟨best, hmax, hmem, hub⟩ := pyMax_spec v hne
  obtain ⟨i, hidx⟩ := pyIndexAux_of_mem best v hmem
  obtain ⟨hilt, hget, hfirst⟩ := pyIndexAux_spec best v i hidx
  have hil : i < labels.length := hv ▸ hilt
  have hin : i < labelsnum.length := labelsnum_length ▸ hil
  refine ⟨i, best, ?_, hilt, hget, ?_, ?_⟩
  · simp only [decideStage, transferList_single v hv, hmax, hidx,
      pyGet_eq_ok labels i "" hil, pyGet_eq_ok labelsnum i "" hin]
  · intro j hj
    apply hub
    rw [List.getD_eq_getElem v 0 hj]
    exact List.getElem_mem hj
  · intro j hj
    have hjlt : j < v.length := lt_trans hj hilt
    have hle : v.getD j 0 ≤ best := by
      apply hub
      rw [List.getD_eq_getElem v 0 hjlt]
      exact List.getElem_mem hjlt
    exact lt_of_le_of_ne hle (hfirst j hj)

/-! ### Lemmas about the category-folder creation step -/

lemma ensureCatsAux_subset (infile : String) (raises : Bool) :
    ∀ (labs acc d : List String), ensureCatsAux infile raises labs acc = .ok d →
      ∀ x ∈ acc, x ∈ d := by
  intro labs
  induction labs with
  | nil =>
      intro acc d h
      have hd : acc = d := by
        simpa [ensureCatsAux] using h
      intro x hx
      exact hd ▸ hx
  | cons lab labs2 ih =>
      intro acc d h
      by_cases h1 : infile = lab
      · rw [ensureCatsAux, if_pos h1] at h
        exact ih acc d h
      · rw [ensureCatsAux, if_neg h1] at h
        by_cases h2 : lab ∈ acc
        · rw [if_pos h2] at h
          exact ih acc d h
        · rw [if_neg h2] at h
          by_cases hr : raises = true
          · rw [if_pos hr] at h; cases h
          · rw [if_neg hr] at h
            intro x hx
            exact ih (acc ++ [lab]) d h x (List.mem_append_left _ hx)

lemma ensureCatsAux_covers (infile : String) (raises : Bool) :
    ∀ (labs acc d : List String), ensureCatsAux infile raises labs acc = .ok d →
      ∀ lab ∈ labs, infile = lab ∨ lab ∈ d := by
  intro labs
  induction labs with
  | nil => intro acc d _ lab hl; cases hl
  | cons lab0 labs2 ih =>
      intro acc d h lab hl
      by_cases h1 : infile = lab0
      · rw [ensureCatsAux, if_pos h1] at h
        cases hl with
        | head => exact Or.inl h1
        | tail _ h2 => exact ih acc d h lab h2
      · rw [ensureCatsAux, if_neg h1] at h
        by_cases h2 : lab0 ∈ acc
        · rw [if_pos h2] at h
          cases hl with
          | head => exact Or.inr (ensureCatsAux_subset infile raises labs2 acc d h lab0 h2)
          | tail _ h3 => exact ih acc d h lab h3
        · rw [if_neg h2] at h
          by_cases hr : raises = true
          · rw [if_pos hr] at h; cases h
          · rw [if_neg hr] at h
            cases hl with
            | head =>
                refine Or.inr ?_
                exact ensureCatsAux_subset infile raises labs2 (acc ++ [lab0]) d h lab0
                  (List.mem_append_right _ (List.mem_singleton.mpr rfl))
            | tail _ h3 => exact ih (acc ++ [lab0]) d h lab h3

lemma ensureCatsAux_nodup (infile : String) (raises : Bool) :
    ∀ (labs acc d : List String), ensureCatsAux infile raises labs acc = .ok d →
      acc.Nodup → d.Nodup := by
  intro labs
  induction labs with
  | nil =>
      intro acc d h hnd
      have hd : acc = d := by simpa [ensureCatsAux] using h
      exact hd ▸ hnd
  | cons lab labs2 ih =>
      intro acc d h hnd
      by_cases h1 : infile = lab
      · rw [ensureCatsAux, if_pos h1] at h
        exact ih acc d h hnd
      · rw [ensureCatsAux, if_neg h1] at h
        by_cases h2 : lab ∈ acc
        · rw [if_pos h2] at h
          exact ih acc d h hnd
        · rw [if_neg h2] at h
          by_cases hr : raises = true
          · rw [if_pos hr] at h; cases h
          · rw [if_neg hr] at h
            apply ih (acc ++ [lab]) d h
            simp [List.nodup_append, hnd, h2]

lemma ensureCatsAux_noop (infile : String) (raises : Bool) :
    ∀ (labs acc : List String), (∀ lab ∈ labs, infile = lab ∨ lab ∈ acc) →
      ensureCatsAux infile raises labs acc = .ok acc := by
  intro labs
  induction labs with
  | nil => intro acc _; rfl
  | cons lab labs2 ih =>
      intro acc h
      by_cases h1 : infile = lab
      · rw [ensureCatsAux, if_pos h1]
        exact ih acc (fun l hl => h l (List.mem_cons_of_mem _ hl))
      · have h2 : lab ∈ acc := by
          rcases h lab (List.mem_cons_self _ _) with hc | hc
          · exact absurd hc h1
          · exact hc
        rw [ensureCatsAux, if_neg h1, if_pos h2]
        exact ih acc (fun l hl => h l (List.mem_cons_of_mem _ hl))

lemma ensureCatsAux_ok_of_quiet (infile : String) :
    ∀ (labs acc : List String), ∃ d, ensureCatsAux infile false labs acc = .ok d := by
  intro labs
  induction labs with
  | nil => intro acc; exact ⟨acc, rfl⟩
  | cons lab labs2 ih =>
      intro acc
      by_cases h1 : infile = lab
      · obtain ⟨d, hd⟩ := ih acc
        exact ⟨d, by rw [ensureCatsAux, if_pos h1]; exact hd⟩
      · by_cases h2 : lab ∈ acc
        · obtain ⟨d, hd⟩ := ih acc
          exact ⟨d, by rw [ensureCatsAux, if_neg h1, if_pos h2]; exact hd⟩
        · obtain ⟨d, hd⟩ := ih (acc ++ [lab])
          refine ⟨d, ?_⟩
          rw [ensureCatsAux, if_neg h1, if_neg h2]
          simpa using hd

/-! ### Branch lemmas for one iteration of the entry loop -/

lemma processEntry_mkdirFail_named (env : String → EntryBehavior)
    (imgpath infile : String) (st : MainState) (n : String)
    (hn : st.name = some n)
    (hE : ensureCats infile st.dirs (env infile).mkdirRaises = .error ()) :
    processEntry env imgpath infile st = .ok { st with error := st.error ++ [n] } := by
  simp only [processEntry, hE, hn]

lemma processEntry_mkdirFail_unnamed (env : String → EntryBehavior)
    (imgpath infile : String) (st : MainState)
    (hn : st.name = none)
    (hE : ensureCats infile st.dirs (env infile).mkdirRaises = .error ()) :
    processEntry env imgpath infile st = .error Abort.nameErrorInHandler := by
  simp only [processEntry, hE, hn]

lemma processEntry_openFail (env : String → EntryBehavior)
    (imgpath infile : String) (st : MainState) (d1 : List String)
    (hE : ensureCats infile st.dirs (env infile).mkdirRaises = .ok d1)
    (hO : (env infile).softmaxOut = none) :
    processEntry env imgpath infile st =
      .ok { st with
              dirs := d1, name := some (joinPath imgpath infile),
              error := st.error ++ [joinPath imgpath infile] } := by
  simp only [processEntry, hE, hO]

lemma processEntry_success (env : String → EntryBehavior)
    (imgpath infile : String) (st : MainState) (d1 : List String)
    (fcOut : List (List ℚ)) (label labelnum : String) (best : ℚ) (i : Nat)
    (hE : ensureCats infile st.dirs (env infile).mkdirRaises = .ok d1)
    (hO : (env infile).softmaxOut = some fcOut)
    (hD : decideStage fcOut = .ok (label, labelnum, best, i))
    (hM : (env infile).moveRaises = false) :
    processEntry env imgpath infile st =
      .ok { st with
              dirs := d1, name := some (joinPath imgpath infile),
              rate := st.rate ++ [best],
              imgname := st.imgname ++ [infile],
              imglabel := st.imglabel ++ [label],
              imglabelnum := st.imglabelnum ++ [labelnum] } := by
  simp only [processEntry, hE, hO, hD, hM]
  simp

lemma processEntry_elseAbort (env : String → EntryBehavior)
    (imgpath infile : String) (st : MainState) (d1 : List String)
    (fcOut : List (List ℚ))
    (hE : ensureCats infile st.dirs (env infile).mkdirRaises = .ok d1)
    (hO : (env infile).softmaxOut = some fcOut)
    (hFail : decideStage fcOut = .error () ∨ (env infile).moveRaises = true) :
    processEntry env imgpath infile st = .error Abort.uncaughtElse := by
  rcases hFail with hD | hM
  · simp only [processEntry, hE, hO, hD]
  · cases hD : decideStage fcOut with
    | error e =>
        cases e
        simp only [processEntry, hE, hO, hD]
    | ok out =>
        obtain ⟨label, labelnum, best, i⟩ := out
        simp only [processEntry, hE, hO, hD, hM]
        simp

/-- Every completed iteration appends exactly one row: one to the success
ledger or one to the failure ledger, never both, never neither. -/
lemma processEntry_ok_count (env : String → EntryBehavior)
    (imgpath infile : String) (st st' : MainState)
    (h : processEntry env imgpath infile st = .ok st') :
    st'.imgname.length + st'.error.length
      = st.imgname.length + st.error.length + 1 := by
  unfold processEntry at h
  cases hE : ensureCats infile st.dirs (env infile).mkdirRaises with
  | error e =>
      cases e
      rw [hE] at h
      cases hn : st.name with
      | none => rw [hn] at h; cases h
      | some n =>
          rw [hn] at h
          simp only [Except.ok.injEq] at h
          rw [← h]
          simp [Nat.add_assoc]
  | ok d1 =>
      rw [hE] at h
      simp only at h
      cases hO : (env infile).softmaxOut with
      | none =>
          rw [hO] at h
          simp only [Except.ok.injEq] at h
          rw [← h]
          simp [Nat.add_assoc]
      | some fcOut =>
          rw [hO] at h
          simp only at h
          cases hD : decideStage fcOut with
          | error e =>
              cases e
              rw [hD] at h
              cases h
          | ok out =>
              obtain ⟨label, labelnum, best, i⟩ := out
              rw [hD] at h
              simp only at h
              cases hM : (env infile).moveRaises with
              | true => rw [hM] at h; simp at h
              | false =>
                  rw [hM] at h
                  simp only [Bool.false_eq_true, if_false, Except.ok.injEq] at h
                  rw [← h]
                  simp [Nat.add_right_comm]

/-- The set of existing category folders only ever grows. -/
lemma processEntry_dirs_mono (env : String → EntryBehavior)
    (imgpath infile : String) (st st' : MainState)
    (h : processEntry env imgpath infile st = .ok st') :
    ∀ x ∈ st.dirs, x ∈ st'.dirs := by
  unfold processEntry at h
  cases hE : ensureCats infile st.dirs (env infile).mkdirRaises with
  | error e =>
      cases e
      rw [hE] at h
      cases hn : st.name with
      | none => rw [hn] at h; cases h
      | some n =>
          rw [hn] at h
          simp only [Except.ok.injEq] at h
          rw [← h]
          exact fun x hx => hx
  | ok d1 =>
      rw [hE] at h
      simp only at h
      have hsub : ∀ x ∈ st.dirs, x ∈ d1 :=
        ensureCatsAux_subset infile (env infile).mkdirRaises labels st.dirs d1 hE
      cases hO : (env infile).softmaxOut with
      | none =>
          rw [hO] at h
          simp only [Except.ok.injEq] at h
          rw [← h]
          exact hsub
      | some fcOut =>
          rw [hO] at h
          simp only at h
          cases hD : decideStage fcOut with
          | error e =>
              cases e
              rw [hD] at h
              cases h
          | ok out =>
              obtain ⟨label, labelnum, best, i⟩ := out
              rw [hD] at h
              simp only at h
              cases hM : (env infile).moveRaises with
              | true => rw [hM] at h; simp at h
              | false =>
                  rw [hM] at h
                  simp only [Bool.false_eq_true, if_false, Except.ok.injEq] at h
                  rw [← h]
                  exact hsub

/-! ### Lemmas about the entry loop, the sort and the report stage -/

lemma mainLoop_cons (env : String → EntryBehavior) (imgpath infile : String)
    (rest : List String) (st st1 : MainState)
    (h : processEntry env imgpath infile st = .ok st1) :
    mainLoop env imgpath (infile :: rest) st = mainLoop env imgpath rest st1 := by
  simp only [mainLoop, h]

lemma mainLoop_cons_error (env : String → EntryBehavior) (imgpath infile : String)
    (rest : List String) (st : MainState) (a : Abort)
    (h : processEntry env imgpath infile st = .error a) :
    mainLoop env imgpath (infile :: rest) st = .error a := by
  simp only [mainLoop, h]

lemma mainLoop_ok_count (env : String → EntryBehavior) (imgpath : String) :
    ∀ (es : List String) (st st' : MainState),
      mainLoop env imgpath es st = .ok st' →
      st'.imgname.length + st'.error.length
        = st.imgname.length + st.error.length + es.length := by
  intro es
  induction es with
  | nil =>
      intro st st' h
      have hst : st = st' := by simpa [mainLoop] using h
      rw [hst]
      simp
  | cons e rest ih =>
      intro st st' h
      unfold mainLoop at h
      cases hp : processEntry env imgpath e st with
      | error a => rw [hp] at h; cases h
      | ok st1 =>
          rw [hp] at h
          simp only at h
          have h1 := processEntry_ok_count env imgpath e st st1 hp
          have h2 := ih st1 st' h
          rw [h2, h1]
          simp [List.length_cons]
          ring

lemma mainLoop_dirs_mono (env : String → EntryBehavior) (imgpath : String) :
    ∀ (es : List String) (st st' : MainState),
      mainLoop env imgpath es st = .ok st' →
      ∀ x ∈ st.dirs, x ∈ st'.dirs := by
  intro es
  induction es with
  | nil =>
      intro st st' h
      have hst : st = st' := by simpa [mainLoop] using h
      rw [hst]
      exact fun x hx => hx
  | cons e rest ih =>
      intro st st' h
      unfold mainLoop at h
      cases hp : processEntry env imgpath e st with
      | error a => rw [hp] at h; cases h
      | ok st1 =>
          rw [hp] at h
          simp only at h
          intro x hx
          exact ih st1 st' h x (processEntry_dirs_mono env imgpath e st st1 hp x hx)

lemma insertSorted_length (s : String) :
    ∀ l : List String, (insertSorted s l).length = l.length + 1 := by
  intro l
  induction l with
  | nil => rfl
  | cons t ts ih =>
      unfold insertSorted
      cases compare s t <;> simp [ih]

lemma sortStrings_length : ∀ l : List String, (sortStrings l).length = l.length := by
  intro l
  induction l with
  | nil => rfl
  | cons s ss ih =>
      unfold sortStrings
      rw [insertSorted_length, ih]
      rfl

lemma main_ok_inv (env : String → EntryBehavior) (imgpath : String)
    (entries : List String) (st : MainState) (w : List CsvWrite)
    (h : main env imgpath entries = .ok (st, w)) :
    mainLoop env imgpath (sortStrings entries) initState = .ok st ∧
      w = reportWrites st := by
  unfold main at h
  cases hl : mainLoop env imgpath (sortStrings entries) initState with
  | error a => rw [hl] at h; cases h
  | ok st0 =>
      rw [hl] at h
      simp only [Except.ok.injEq, Prod.mk.injEq] at h
      obtain ⟨h1, h2⟩ := h
      subst h1
      exact ⟨rfl, h2.symm⟩

lemma script_cons_error (env : String → EntryBehavior) (p : String)
    (es : List String) (rest : List (String × List String)) (a : Abort)
    (h : main env p es = .error a) :
    script env ((p, es) :: rest) = .error a := by
  simp only [script, h]

/-! ### Claim theorems -/

/-- C1: the claim says an entry lacking an allow-listed extension is silently
skipped, appearing in neither ledger.  In the code both "skip" checks are dead
(`continue` targets the inner loops), so the ineligible entry `readme.txt` is
run through the pipeline and is recorded in the failure ledger: evaluating the
code at the failing input shows the ledger pair `([], ["r/readme.txt"])`
instead of `([], [])`. -/
theorem C1_ineligible_entry_reaches_failure_ledger :
    specEligible "readme.txt" = false ∧
      (main (fun _ => ⟨false, none, false⟩) "r" ["readme.txt"]).toOption.map
          (fun r => (r.1.imgname, r.1.error))
        = some ([], ["r/readme.txt"]) := by
  decide

/-- C2 counterexample: the claim says an exception in the file-move stage is
caught, converted to a FailureRecord, and processing continues.  In the code
`shutil.move` sits in the `try`'s `else` clause, outside the handler: a folder
with the single eligible entry `a.jpg` whose move raises makes the whole run
abort, with the entry in neither ledger and no artifact written. -/
theorem C2_cex_move_exception_aborts_run :
    main (fun _ => ⟨false, some [[1, 0, 0, 0, 0, 0, 0]], true⟩) "r" ["a.jpg"]
      = .error Abort.uncaughtElse := by
  decide

/-- C2 amended: exceptions raised inside the `try` block — per-entry
category-folder creation (provided `name` is already bound) and the
open/preprocess/classification stage — are caught, converted into a failure
record, and the loop continues with the next entry; exceptions raised by the
decision or file-move stages, which run in the `try`'s `else` clause, are not
caught and abort the run. -/
theorem C2_amended_try_caught_else_uncaught :
    (∀ (env : String → EntryBehavior) (imgpath infile : String)
        (st : MainState) (d1 : List String),
        ensureCats infile st.dirs (env infile).mkdirRaises = .ok d1 →
        (env infile).softmaxOut = none →
        processEntry env imgpath infile st =
          .ok { st with
                  dirs := d1, name := some (joinPath imgpath infile),
                  error := st.error ++ [joinPath imgpath infile] }) ∧
    (∀ (env : String → EntryBehavior) (imgpath infile : String)
        (st : MainState) (n : String),
        st.name = some n →
        ensureCats infile st.dirs (env infile).mkdirRaises = .error () →
        ∃ st', processEntry env imgpath infile st = .ok st' ∧
          st'.error = st.error ++ [n]) ∧
    (∀ (env : String → EntryBehavior) (imgpath infile : String)
        (st : MainState) (d1 : List String) (fcOut : List (List ℚ)),
        ensureCats infile st.dirs (env infile).mkdirRaises = .ok d1 →
        (env infile).softmaxOut = some fcOut →
        (decideStage fcOut = .error () ∨ (env infile).moveRaises = true) →
        processEntry env imgpath infile st = .error Abort.uncaughtElse) ∧
    (∀ (env : String → EntryBehavior) (imgpath infile : String)
        (rest : List String) (st st1 : MainState),
        processEntry env imgpath infile st = .ok st1 →
        mainLoop env imgpath (infile :: rest) st = mainLoop env imgpath rest st1) := by
  refine ⟨?_, ?_, ?_, ?_⟩
  · intro env imgpath infile st d1 hE hO
    exact processEntry_openFail env imgpath infile st d1 hE hO
  · intro env imgpath infile st n hn hE
    exact ⟨_, processEntry_mkdirFail_named env imgpath infile st n hn hE, rfl⟩
  · intro env imgpath infile st d1 fcOut hE hO hFail
    exact processEntry_elseAbort env imgpath infile st d1 fcOut hE hO hFail
  · intro env imgpath infile rest st st1 h
    exact mainLoop_cons env imgpath infile rest st st1 h

/-- Witness for C2 amended: a concrete entry whose image-open stage fails is
caught and recorded, with the run state otherwise advanced. -/
theorem C2_amended_witness :
    processEntry (fun _ => ⟨false, none, false⟩) "r" "a.jpg" initState
      = .ok { initState with
                dirs := labels, name := some (joinPath "r" "a.jpg"),
                error := [joinPath "r" "a.jpg"] } :=
  C2_amended_try_caught_else_uncaught.1 (fun _ => ⟨false, none, false⟩)
    "r" "a.jpg" initState labels (by decide) rfl

/-- C3 counterexample: the claim says category-folder creation runs once per
folder before the loop and that its failure aborts all remaining processing of
the folder.  Concretely: the first entry is a non-image regular file named
exactly like category folder 0 — the creation loop skips the label equal to
the entry, so that folder is never created and the name stays occupied by the
file, and `Image.open` on it raises.  The second and third entries then each
attempt `os.mkdir` of the blocked label-0 name, which raises
`FileExistsError` (the file is never moved away, so the name stays blocked
for both).  Yet the run completes: each creation failure is caught as a
per-entry failure recorded under the stale `name`, the entries after the
first creation failure are still processed, and both ledgers are reported. -/
theorem C3_cex_mkdir_failure_does_not_abort_folder :
    (main (fun s => if s = "0.Panoramic-landscape" then ⟨false, none, false⟩
        else ⟨true, none, false⟩)
      "r" ["0.Panoramic-landscape", "a.jpg", "b.jpg"]).toOption.map
        (fun r => (r.1.imgname, r.1.error))
      = some ([], ["r/0.Panoramic-landscape", "r/0.Panoramic-landscape",
          "r/0.Panoramic-landscape"]) := by
  decide

/-- C3 amended: category-folder creation runs inside every entry's `try`
block, not once before the loop; its failure is caught as a per-entry failure
recorded under the current (stale) value of `name` — except on the first
entry, where `name` is unbound and the handler's `NameError` aborts the
entire run. -/
theorem C3_amended_percentry_creation_caught :
    (∀ (env : String → EntryBehavior) (imgpath infile : String)
        (st : MainState) (n : String),
        st.name = some n →
        ensureCats infile st.dirs (env infile).mkdirRaises = .error () →
        ∃ st', processEntry env imgpath infile st = .ok st' ∧
          st'.error = st.error ++ [n] ∧ st'.imgname = st.imgname) ∧
    (∀ (env : String → EntryBehavior) (imgpath infile : String)
        (rest : List String),
        ensureCats infile initState.dirs (env infile).mkdirRaises = .error () →
        mainLoop env imgpath (infile :: rest) initState
          = .error Abort.nameErrorInHandler) := by
  constructor
  · intro env imgpath infile st n hn hE
    exact ⟨_, processEntry_mkdirFail_named env imgpath infile st n hn hE, rfl, rfl⟩
  · intro env imgpath infile rest hE
    apply mainLoop_cons_error
    exact processEntry_mkdirFail_unnamed env imgpath infile initState rfl hE

/-- Witness for C3 amended: a first entry whose folder creation raises kills
the whole folder run with the handler's `NameError`. -/
theorem C3_amended_witness :
    mainLoop (fun _ => ⟨true, none, false⟩) "r" ["a.jpg"] initState
      = .error Abort.nameErrorInHandler :=
  C3_amended_percentry_creation_caught.2 (fun _ => ⟨true, none, false⟩)
    "r" "a.jpg" [] (by decide)

/-- C4 counterexample: the claim says success rows plus failure rows equal
the number of allow-list-eligible entries.  A folder with the single
ineligible entry `readme.txt` has zero eligible entries, yet the run records
one row (a failure), because the code filters nothing. -/
theorem C4_cex_sum_exceeds_eligible_count :
    (main (fun _ => ⟨false, none, false⟩) "r" ["readme.txt"]).toOption.map
        (fun r => (r.1.imgname.length + r.1.error.length))
      = some 1 ∧
      (["readme.txt"].filter (fun e => specEligible e)).length = 0 := by
  decide

/-- C4 amended: for every folder whose run completes, each listed entry
contributes exactly one row, so the success-row count plus the failure-row
count equals the number of ALL entries of the folder — eligibility is not
enforced, and failure rows hold the value of `name` (a full, possibly stale,
path) rather than the entry's bare filename. -/
theorem C4_amended_ledger_total_counts_all_entries
    (env : String → EntryBehavior) (imgpath : String) (entries : List String)
    (st : MainState) (w : List CsvWrite)
    (h : main env imgpath entries = .ok (st, w)) :
    st.imgname.length + st.error.length = entries.length := by
  obtain ⟨hl, _⟩ := main_ok_inv env imgpath entries st w h
  have hc := mainLoop_ok_count env imgpath (sortStrings entries) initState st hl
  rw [sortStrings_length] at hc
  simpa [initState] using hc

/-- Witness for C4 amended at the empty folder. -/
theorem C4_amended_witness :
    initState.imgname.length + initState.error.length = ([] : List String).length :=
  C4_amended_ledger_total_counts_all_entries (fun _ => ⟨false, none, false⟩)
    "r" [] initState [CsvWrite.successCsv [] [] [] []] rfl

/-- C5 counterexample: the claim says a FailureRecord stores the bare
filename.  For the failing entry `a.txt` in folder `r` the ledger records the
joined path `r/a.txt`, which differs from the bare filename `a.txt`. -/
theorem C5_cex_failure_record_is_full_path :
    (main (fun _ => ⟨false, none, false⟩) "r" ["a.txt"]).toOption.map
        (fun r => r.1.error) = some ["r/a.txt"] ∧
      ("r/a.txt" : String) ≠ "a.txt" := by
  decide

/-- C5 amended: a FailureRecord stores the current value of the variable
`name`, i.e. the full joined path `os.path.join(imgpath, infile)` of the most
recent entry to reach the `name` assignment — not the bare filename (the
recorded string is longer than the filename by the folder path and the
separator). -/
theorem C5_amended_failure_record_is_name_value
    (env : String → EntryBehavior) (imgpath infile : String)
    (st : MainState) (d1 : List String)
    (hE : ensureCats infile st.dirs (env infile).mkdirRaises = .ok d1)
    (hO : (env infile).softmaxOut = none) :
    ∃ st', processEntry env imgpath infile st = .ok st' ∧
      st'.error = st.error ++ [joinPath imgpath infile] ∧
      (joinPath imgpath infile).length = imgpath.length + 1 + infile.length := by
  refine ⟨_, processEntry_openFail env imgpath infile st d1 hE hO, rfl, ?_⟩
  have h1 : ("/" : String).length = 1 := rfl
  simp [joinPath, String.length_append, h1]

/-- Witness for C5 amended: the concretely recorded failure value. -/
theorem C5_amended_witness :
    ∃ st', processEntry (fun _ => ⟨false, none, false⟩) "r" "a.txt" initState
        = .ok st' ∧
      st'.error = initState.error ++ [joinPath "r" "a.txt"] ∧
      (joinPath "r" "a.txt").length = ("r" : String).length + 1 + ("a.txt" : String).length :=
  C5_amended_failure_record_is_name_value (fun _ => ⟨false, none, false⟩)
    "r" "a.txt" initState labels (by decide) rfl

/-- C6: for every probability vector of the model's output length, the
decision stage returns the index of the maximum entry — the lowest index
winning among tied maxima — and the paired confidence is the value at that
index.  `decideStage` is a pure function of the vector, so for a fixed vector
the returned pair is always the same by construction. -/
theorem C6_decision_first_argmax (v : List ℚ) (hv : v.length = labels.length) :
    ∃ i best,
      decideStage [v] = .ok (labels.getD i "", labelsnum.getD i "", best, i) ∧
      i < v.length ∧ v.getD i 0 = best ∧
      (∀ j, j < v.length → v.getD j 0 ≤ best) ∧
      (∀ j, j < i → v.getD j 0 < best) :=
  decideStage_spec v hv

/-- Witness for C6 at a vector with two tied maxima: the decision stage picks
an index, the value there is the maximum, and every earlier entry is strictly
below it (so the tie at indices 0 and 1 is resolved to index 0). -/
theorem C6_witness :
    ∃ i best,
      decideStage [[(1 : ℚ)/2, 1/2, 0, 0, 0, 0, 0]]
        = .ok (labels.getD i "", labelsnum.getD i "", best, i) ∧
      i < ([(1 : ℚ)/2, 1/2, 0, 0, 0, 0, 0] : List ℚ).length ∧
      ([(1 : ℚ)/2, 1/2, 0, 0, 0, 0, 0] : List ℚ).getD i 0 = best ∧
      (∀ j, j < ([(1 : ℚ)/2, 1/2, 0, 0, 0, 0, 0] : List ℚ).length →
        ([(1 : ℚ)/2, 1/2, 0, 0, 0, 0, 0] : List ℚ).getD j 0 ≤ best) ∧
      (∀ j, j < i → ([(1 : ℚ)/2, 1/2, 0, 0, 0, 0, 0] : List ℚ).getD j 0 < best) :=
  C6_decision_first_argmax [(1 : ℚ)/2, 1/2, 0, 0, 0, 0, 0] (by decide)

/-- C7: for a successfully processed entry, the recorded confidence is the
value appended to `rate`, and it equals the maximum entry of the entry's
softmax vector — which is exactly the probability the vector assigns to the
winning category recorded alongside it. -/
theorem C7_confidence_is_max_softmax (env : String → EntryBehavior)
    (imgpath infile : String) (st : MainState) (v : List ℚ)
    (hm : (env infile).mkdirRaises = false)
    (hO : (env infile).softmaxOut = some [v])
    (hv : v.length = labels.length)
    (hmove : (env infile).moveRaises = false) :
    ∃ st' i c, processEntry env imgpath infile st = .ok st' ∧
      st'.rate = st.rate ++ [c] ∧
      st'.imglabel = st.imglabel ++ [labels.getD i ""] ∧
      st'.imglabelnum = st.imglabelnum ++ [labelsnum.getD i ""] ∧
      i < v.length ∧ v.getD i 0 = c ∧
      (∀ j, j < v.length → v.getD j 0 ≤ c) := by
  obtain ⟨i, best, hD, hilt, hget, hub, _⟩ := decideStage_spec v hv
  obtain ⟨d1, hE0⟩ := ensureCatsAux_ok_of_quiet infile labels st.dirs
  have hE : ensureCats infile st.dirs (env infile).mkdirRaises = .ok d1 := by
    rw [hm]
    exact hE0
  refine ⟨_, i, best,
    processEntry_success env imgpath infile st d1 [v] (labels.getD i "")
      (labelsnum.getD i "") best i hE hO hD hmove,
    rfl, rfl, rfl, hilt, hget, hub⟩

/-- Witness for C7 at a concrete entry with softmax vector
(1/10, 7/10, 1/10, 1/10, 0, 0, 0). -/
theorem C7_witness :
    ∃ st' i c,
      processEntry
          (fun _ => ⟨false, some [[(1 : ℚ)/10, 7/10, 1/10, 1/10, 0, 0, 0]], false⟩)
          "r" "a.jpg" initState = .ok st' ∧
      st'.rate = initState.rate ++ [c] ∧
      st'.imglabel = initState.imglabel ++ [labels.getD i ""] ∧
      st'.imglabelnum = initState.imglabelnum ++ [labelsnum.getD i ""] ∧
      i < ([(1 : ℚ)/10, 7/10, 1/10, 1/10, 0, 0, 0] : List ℚ).length ∧
      ([(1 : ℚ)/10, 7/10, 1/10, 1/10, 0, 0, 0] : List ℚ).getD i 0 = c ∧
      (∀ j, j < ([(1 : ℚ)/10, 7/10, 1/10, 1/10, 0, 0, 0] : List ℚ).length →
        ([(1 : ℚ)/10, 7/10, 1/10, 1/10, 0, 0, 0] : List ℚ).getD j 0 ≤ c) :=
  C7_confidence_is_max_softmax
    (fun _ => ⟨false, some [[(1 : ℚ)/10, 7/10, 1/10, 1/10, 0, 0, 0]], false⟩)
    "r" "a.jpg" initState [(1 : ℚ)/10, 7/10, 1/10, 1/10, 0, 0, 0]
    rfl rfl (by decide) rfl

/-- C8: when a folder's run completes, the success table (with exactly the
four ledger columns, possibly all empty) is always among the written
artifacts, and a failure table is written iff the failure ledger is
non-empty. -/
theorem C8_reports (env : String → EntryBehavior) (imgpath : String)
    (entries : List String) (st : MainState) (w : List CsvWrite)
    (h : main env imgpath entries = .ok (st, w)) :
    CsvWrite.successCsv st.imgname st.imglabel st.imglabelnum st.rate ∈ w ∧
      ((∃ errs, CsvWrite.failureCsv errs ∈ w) ↔ st.error ≠ []) := by
  obtain ⟨_, hw⟩ := main_ok_inv env imgpath entries st w h
  subst hw
  constructor
  · exact List.mem_cons_self _ _
  · unfold reportWrites
    by_cases he : st.error.isEmpty = true
    · rw [if_pos he]
      rw [List.isEmpty_iff] at he
      simp [he]
    · rw [if_neg he]
      rw [List.isEmpty_iff] at he
      constructor
      · intro _
        exact he
      · intro _
        exact ⟨st.error, by simp⟩

/-- Witness for C8 at an empty folder: the header-only success table is
written and, the failure ledger being empty, no failure artifact appears. -/
theorem C8_witness :
    CsvWrite.successCsv initState.imgname initState.imglabel
        initState.imglabelnum initState.rate ∈ [CsvWrite.successCsv [] [] [] []] ∧
      ((∃ errs, CsvWrite.failureCsv errs ∈ [CsvWrite.successCsv [] [] [] []]) ↔
        initState.error ≠ []) :=
  C8_reports (fun _ => ⟨false, none, false⟩) "r" [] initState
    [CsvWrite.successCsv [] [] [] []] rfl

/-- C9: the category-folder creation step is idempotent and non-destructive —
after a successful pass, running it again raises nothing (no `os.mkdir` is
attempted, whatever the filesystem mood) and returns the directory set
unchanged; it preserves freedom from duplicates and keeps every pre-existing
directory; and across a whole folder run the directory set only ever grows
(the pipeline has no delete or rename operation at all). -/
theorem C9_ensure_categories_idempotent :
    (∀ (infile : String) (dirs d1 : List String) (r r' : Bool),
        ensureCats infile dirs r = .ok d1 →
        ensureCats infile d1 r' = .ok d1 ∧ (dirs.Nodup → d1.Nodup) ∧
          ∀ x ∈ dirs, x ∈ d1) ∧
    (∀ (env : String → EntryBehavior) (imgpath : String) (es : List String)
        (st st' : MainState),
        mainLoop env imgpath es st = .ok st' → ∀ x ∈ st.dirs, x ∈ st'.dirs) := by
  constructor
  · intro infile dirs d1 r r' h
    refine ⟨?_, fun hnd => ensureCatsAux_nodup infile r labels dirs d1 h hnd,
      ensureCatsAux_subset infile r labels dirs d1 h⟩
    exact ensureCatsAux_noop infile r' labels d1
      (fun lab hl => ensureCatsAux_covers infile r labels dirs d1 h lab hl)
  · intro env imgpath es st st' h
    exact mainLoop_dirs_mono env imgpath es st st' h

/-- Witness for C9: after creating all seven category folders in an empty
directory, a second pass (even with a filesystem that would make any
attempted `os.mkdir` raise) returns the same directory set with no error. -/
theorem C9_witness :
    ensureCats "a.jpg" labels true = .ok labels ∧ ([] : List String) ≠ labels :=
  ⟨(C9_ensure_categories_idempotent.1 "a.jpg" [] labels false true (by decide)).1,
    by decide⟩

/-- C10: the per-entry handler records the current value of `name`: when an
entry fails before `name` is reassigned (during folder creation), the ledger
receives the previous entry's path — concretely, after a first entry named
like category folder 0, a second entry whose `os.mkdir` raises leaves the
first entry's path in the ledger twice — and when the lexicographically first
entry fails there, `name` is unbound, the handler itself raises and the abort
propagates through the top-level folder loop, killing the whole run. -/
theorem C10_stale_name_in_handler :
    (∀ (env : String → EntryBehavior) (imgpath infile : String)
        (st : MainState) (n : String),
        st.name = some n →
        ensureCats infile st.dirs (env infile).mkdirRaises = .error () →
        processEntry env imgpath infile st
          = .ok { st with error := st.error ++ [n] }) ∧
    (∀ (env : String → EntryBehavior) (imgpath infile : String) (st : MainState),
        st.name = none →
        ensureCats infile st.dirs (env infile).mkdirRaises = .error () →
        processEntry env imgpath infile st = .error Abort.nameErrorInHandler) ∧
    (∀ (env : String → EntryBehavior) (p : String) (es : List String)
        (rest : List (String × List String)) (a : Abort),
        main env p es = .error a → script env ((p, es) :: rest) = .error a) ∧
    (main (fun s => if s = "a.jpg" then ⟨true, none, false⟩ else ⟨false, none, false⟩)
        "r" ["0.Panoramic-landscape", "a.jpg"]).toOption.map (fun r => r.1.error)
      = some ["r/0.Panoramic-landscape", "r/0.Panoramic-landscape"] := by
  refine ⟨?_, ?_, ?_, by decide⟩
  · intro env imgpath infile st n hn hE
    exact processEntry_mkdirFail_named env imgpath infile st n hn hE
  · intro env imgpath infile st hn hE
    exact processEntry_mkdirFail_unnamed env imgpath infile st hn hE
  · intro env p es rest a h
    exact script_cons_error env p es rest a h

/-- Witness for C10: a first entry whose category-folder creation raises
aborts the run through the handler's `NameError`. -/
theorem C10_witness :
    processEntry (fun _ => ⟨true, none, false⟩) "r" "a.jpg" initState
      = .error Abort.nameErrorInHandler :=
  C10_stale_name_in_handler.2.1 (fun _ => ⟨true, none, false⟩)
    "r" "a.jpg" initState rfl (by decide)

end Litton7
